import Mathlib

/-!
Verification of the nginx log exporter's per-line processing pipeline.

Shallow embedding of the per-line processing pipeline of
`prometheus-nginxlog-exporter` (file `main.go` of the repository, plus
`pkg/config/struct_namespace.go`), together with proofs of the spec claims.

Conventions of the embedding:
* Go `float64` values are modelled as `ℚ`; `strconv.ParseFloat` is modelled by
  `parseFloat`, a parser for plain decimal literals (optional sign, digits,
  optional single decimal point), which agrees with Go on all values relevant
  here (access-log byte counts and durations) and rejects the same malformed
  tokens (`"-"`, `""`, `"x"`, strings with spaces or delimiters).
* Go maps `map[string]string` are modelled as association lists with unique
  keys; map assignment is `upsert`.
* Prometheus metric objects are modelled as event logs: a counter is the
  number (or list) of increments performed, an observer is the list of
  `(labelValues, value)` observations performed.
* The `pkg/relabeling` package is not part of the sources under review; the
  small pieces of it the pipeline needs are modelled from the spec and marked
  as such in their doc comments.
-/

/-! ## Characters and string helpers (models of Go stdlib functions) -/

/-- ASCII decimal digit test. -/
def isDigit (c : Char) : Bool := '0' ≤ c && c ≤ '9'

/-- Model of the whitespace class trimmed by Go `strings.TrimSpace`
(restricted to the ASCII whitespace that can occur in access-log fields). -/
def isSpace (c : Char) : Bool := c = ' ' || c = '\t' || c = '\n' || c = '\r'

/-- The delimiter predicate passed to `strings.FieldsFunc` in
`floatFromFieldsMulti`: a rune is a delimiter iff it is `,` or `:`. -/
def isSep (c : Char) : Bool := c = ',' || c = ':'

/-- Model of Go `strings.TrimSpace` on a character list. -/
def trimChars (cs : List Char) : List Char :=
  ((cs.dropWhile isSpace).reverse.dropWhile isSpace).reverse

/-- Model of Go `strings.TrimSpace`. -/
def trimSpace (s : String) : String := ⟨trimChars s.toList⟩

/-- Split a character list at delimiter characters, keeping (possibly empty)
groups between delimiters. The result is always nonempty. -/
def splitSeps : List Char → List (List Char)
  | [] => [[]]
  | c :: rest =>
    match splitSeps rest with
    | [] => if isSep c then [[], []] else [[c]]
    | g :: gs => if isSep c then [] :: g :: gs else (c :: g) :: gs

/-- Model of Go `strings.FieldsFunc(val, isSep)`: the maximal runs of
non-delimiter characters, i.e. the nonempty groups of `splitSeps`. -/
def fieldsFuncSplit (s : String) : List String :=
  ((splitSeps s.toList).filter (· ≠ [])).map (fun cs => (⟨cs⟩ : String))

/-- Numeric value of a digit list (most significant first). -/
def natVal (cs : List Char) : Nat :=
  cs.foldl (fun acc c => 10 * acc + (c.toNat - 48)) 0

/-- Addition on `ℚ` expressed through the (kernel-computable) smart
constructor `mkRat`; equal to `+` by `Rat.add_def'`. Used so that concrete
pipeline runs evaluate inside `decide`. -/
def qadd (a b : ℚ) : ℚ := mkRat (a.num * b.den + b.num * a.den) (a.den * b.den)

theorem qadd_eq (a b : ℚ) : qadd a b = a + b := (Rat.add_def' a b).symm

/-- Parse an unsigned decimal literal: digits with at most one decimal point
and at least one digit in total. The value of `intPart.fracPart` is
`natVal (intPart ++ fracPart) / 10 ^ |fracPart|`. -/
def parseUnsigned (cs : List Char) : Option ℚ :=
  let intPart := cs.takeWhile isDigit
  match cs.dropWhile isDigit with
  | [] => if intPart.isEmpty then none else some (natVal intPart : ℚ)
  | d :: frac =>
    if d = '.' then
      if intPart.isEmpty && frac.isEmpty then none
      else if frac.all isDigit then
        some (mkRat (natVal (intPart ++ frac)) (10 ^ frac.length))
      else none
    else none

/-- Model of Go `strconv.ParseFloat(s, 64)`, restricted to plain decimal
forms (optional sign, digits, optional single decimal point). Returns `none`
where Go returns an error. -/
def parseFloat (s : String) : Option ℚ :=
  match s.toList with
  | [] => none
  | c :: rest =>
    if c = '-' then (parseUnsigned rest).map Neg.neg
    else if c = '+' then parseUnsigned rest
    else parseUnsigned (c :: rest)

/-! ## Field mappings -/

/-- A parsed log line: the `map[string]string` produced by the line parser,
modelled as an association list with unique keys. -/
abbrev Fields := List (String × String)

/-- Go map read `fields[name]`: the value stored under `name`, if any. -/
def lookupField : Fields → String → Option String
  | [], _ => none
  | (k, v) :: rest, name => if k = name then some v else lookupField rest name

/-! ## Numeric field extraction (`floatFromFields`, `floatFromFieldsMulti`) -/

/-- The `(float64, bool, error)` result of the extractor functions; the error
message text is irrelevant, so `err` only records presence of an error. -/
structure Extraction where
  value : ℚ
  ok : Bool
  err : Bool
deriving DecidableEq, Repr

/-- Embedding of `floatFromFields` (main.go): look up the field; absent or
`"-"` means silently skipped; otherwise parse, with a parse failure reported
as an error. -/
def floatFromFields (fields : Fields) (name : String) : Extraction :=
  match lookupField fields name with
  | none => ⟨0, false, false⟩
  | some val =>
    if val = "-" then ⟨0, false, false⟩
    else
      match parseFloat val with
      | none => ⟨0, false, true⟩
      | some f => ⟨f, true, false⟩

/-- The summation loop of `floatFromFieldsMulti`: trim each token, skip `"-"`
tokens, fail on the first unparseable token, otherwise accumulate the sum. -/
def sumMulti : List String → ℚ → Option ℚ
  | [], acc => some acc
  | v :: rest, acc =>
    let v' := trimSpace v
    if v' = "-" then sumMulti rest acc
    else
      match parseFloat v' with
      | none => none
      | some f => sumMulti rest (qadd acc f)

/-- Embedding of `floatFromFieldsMulti` (main.go): first try the whole value
as a single float (`floatFromFields`); only if that errors, split the value on
`,`/`:` and sum the non-`"-"` tokens, any unparseable token failing the whole
observation. -/
def floatFromFieldsMulti (fields : Fields) (name : String) : Extraction :=
  let r := floatFromFields fields name
  if r.err = false then r
  else
    match lookupField fields name with
    | none => ⟨0, false, false⟩
    | some val =>
      match sumMulti (fieldsFuncSplit val) 0 with
      | none => ⟨0, false, true⟩
      | some s => ⟨s, true, false⟩

/-- The observable outcome of one `observeMetrics` call: the returned value
and flag, plus how often the parse-error counter was incremented. -/
structure ObserveResult where
  value : ℚ
  ok : Bool
  errInc : Nat
deriving DecidableEq, Repr

/-- Embedding of `observeMetrics` (main.go): on `ok` return the observation;
otherwise, if the extractor reported an error, increment the parse-error
counter; in either failure case return `(0, false)`. -/
def observeMetrics (extractor : Fields → String → Extraction)
    (fields : Fields) (name : String) : ObserveResult :=
  let r := extractor fields name
  if r.ok then ⟨r.value, true, 0⟩
  else if r.err then ⟨0, false, 1⟩
  else ⟨0, false, 0⟩

/-! ## Configuration (`pkg/config/struct_namespace.go`) -/

/-- Embedding of the `MetricsConfig` struct. -/
structure MetricsConfig where
  currentUserInterval : Int
  disableCountTotal : Bool
  disableResponseBytesTotal : Bool
  disableRequestBytesTotal : Bool
  disableUpstreamSeconds : Bool
  disableUpstreamConnectSeconds : Bool
  disableResponseSeconds : Bool

/-- A relabeling rule.  The `RelabelConfig` struct and its compiled `Map`
value-transform live in `pkg/config` / `pkg/relabeling`, which are not among
the sources under review; the fields are modelled from the spec: source field
name, target label name, a value-transform that may fail (`none`), and the
`OnlyCounter` and `Exclude` flags. -/
structure Rule where
  targetLabel : String
  sourceValue : String
  onlyCounter : Bool
  exclude : Bool
  map : String → Option String

/-- Embedding of the `NamespaceConfig` struct (the parts the pipeline reads). -/
structure NamespaceConfig where
  labels : List (String × String)
  relabelConfigs : List Rule
  metricsConfig : MetricsConfig

/-- Embedding of `NamespaceConfig.OrderLabels`: collect the keys of the label
mapping (in the mapping's enumeration order), sort them lexicographically, and
list the associated values in that key order.  Returns
`(OrderedLabelNames, OrderedLabelValues)`. -/
def orderLabels (labels : List (String × String)) : List String × List String :=
  let keys := List.insertionSort (· ≤ ·) (labels.map Prod.fst)
  (keys, keys.map (fun k => (lookupField labels k).getD ""))

/-! ## Field filter (`filterFields`, main.go) -/

/-- The `switch field` statement of `filterFields`: is this field's metric
disabled? -/
def disabledField (cfg : NamespaceConfig) (field : String) : Bool :=
  if field = "body_bytes_sent" then cfg.metricsConfig.disableResponseBytesTotal
  else if field = "request_length" then cfg.metricsConfig.disableRequestBytesTotal
  else if field = "upstream_response_time" then cfg.metricsConfig.disableUpstreamSeconds
  else if field = "upstream_connect_time" then cfg.metricsConfig.disableUpstreamConnectSeconds
  else if field = "request_time" then cfg.metricsConfig.disableResponseSeconds
  else false

/-- Embedding of `filterFields` (main.go): keep exactly the fields whose
metric is not disabled, values unchanged. -/
def filterFields (fields : Fields) (nsCfg : NamespaceConfig) : Fields :=
  List.filter (fun fv => !disabledField nsCfg fv.1) fields

/-! ## Relabeling rule-list derivation (pkg/relabeling, modelled) -/

/-- Modelled from the spec: `relabeling.UniqueRelabelings` — the merged rule
list is "deduplicated by target label name", the first occurrence (a custom
rule rather than a later built-in default) surviving. -/
def uniqueAux : List Rule → List String → List Rule
  | [], _ => []
  | r :: rest, seen =>
    if r.targetLabel ∈ seen then uniqueAux rest seen
    else r :: uniqueAux rest (r.targetLabel :: seen)

/-- Modelled from the spec: `relabeling.UniqueRelabelings`. -/
def uniqueRelabelings (rules : List Rule) : List Rule := uniqueAux rules []

/-- Modelled from the spec: `relabeling.StripExcluded` — drop the rules whose
`Exclude` flag is set, so that they are "not materialized as an output
label". -/
def stripExcluded (rules : List Rule) : List Rule :=
  rules.filter (fun r => !r.exclude)

/-- Modelled from the spec: `relabeling.StripOnlyCounterValues` — the derived
"counter-excluded" vector, produced "by omitting the OnlyCounter slots": the
static segment is kept and each relabeling slot whose rule has `OnlyCounter`
set is dropped. -/
def stripOnlyCounterValues (labelValues : List String) (relabelings : List Rule) : List String :=
  labelValues.take (labelValues.length - relabelings.length) ++
    ((labelValues.drop (labelValues.length - relabelings.length)).zip relabelings).filterMap
      (fun vr => if vr.2.onlyCounter then none else some vr.1)

/-! ## The relabeling loop of `processSource` (main.go, lines 320–327) -/

/-- The `for i := range relabelings` loop body: for each rule, if the filtered
field mapping has the rule's source field and the value-transform succeeds,
write the transformed value into slot `idx`; otherwise leave the slot alone.
`idx` starts at `relabelLabelOffset`. -/
def applyRelabelings : List Rule → Fields → Nat → List String → List String
  | [], _, _, lv => lv
  | r :: rest, fields, idx, lv =>
    let lv' :=
      match lookupField fields r.sourceValue with
      | some str =>
        match r.map str with
        | some mapped => lv.set idx mapped
        | none => lv
      | none => lv
    applyRelabelings rest fields (idx + 1) lv'

/-! ## User tracking (`observeCurrentUsers`, main.go) -/

/-- Go map assignment `users[k] = v`: replace the binding if the key is
present, append it otherwise. -/
def upsert : List (String × Int) → String → Int → List (String × Int)
  | [], k, v => [(k, v)]
  | (k', v') :: rest, k, v =>
    if k' = k then (k, v) :: rest else (k', v') :: upsert rest k v

/-- Embedding of `observeCurrentUsers` (main.go): skip unless `remote_addr`
and `http_user_agent` are both present and nonempty; otherwise store the
current timestamp under `remote_addr ++ "::" ++ http_user_agent` and return
the tracker's size.  `time.Now().Unix()` is passed in as `now`. -/
def observeCurrentUsers (fields : Fields) (users : List (String × Int)) (now : Int) :
    (ℚ × Bool) × List (String × Int) :=
  match lookupField fields "remote_addr" with
  | none => ((0, false), users)
  | some remoteAddr =>
    if remoteAddr = "" then ((0, false), users)
    else
      match lookupField fields "http_user_agent" with
      | none => ((0, false), users)
      | some userAgent =>
        if userAgent = "" then ((0, false), users)
        else
          let userId := remoteAddr ++ "::" ++ userAgent
          let users' := upsert users userId now
          (((users'.length : ℚ), true), users')

/-! ## Metric aggregation state -/

/-- Event-log model of the namespace's metric collection: each counter /
summary / histogram / gauge records the sequence of updates applied to it,
keyed by the label vector used. -/
structure Metrics where
  parseErrorsTotal : Nat
  countTotal : List (List String)
  currentUsers : List (List String × ℚ)
  responseBytesTotal : List (List String × ℚ)
  requestBytesTotal : List (List String × ℚ)
  upstreamSeconds : List (List String × ℚ)
  upstreamSecondsHist : List (List String × ℚ)
  upstreamConnectSeconds : List (List String × ℚ)
  upstreamConnectSecondsHist : List (List String × ℚ)
  responseSeconds : List (List String × ℚ)
  responseSecondsHist : List (List String × ℚ)
deriving DecidableEq, Repr

/-- The metric collection before any line is processed. -/
def emptyMetrics : Metrics := ⟨0, [], [], [], [], [], [], [], [], [], []⟩

/-- The outcome of the five `observeMetrics` blocks of the line loop
(main.go, lines 363–384): per recognized numeric field, the observation made
(if any), plus the number of parse-error increments. -/
structure LineEvents where
  parseErrInc : Nat
  responseBytes : Option ℚ
  requestBytes : Option ℚ
  upstreamTime : Option ℚ
  upstreamConnectTime : Option ℚ
  responseTime : Option ℚ
deriving DecidableEq, Repr

/-- The five `observeMetrics` calls of the line loop, in source order:
`body_bytes_sent` and `request_length` and `request_time` with
`floatFromFields`, the two upstream fields with `floatFromFieldsMulti`. -/
def observeLine (fields : Fields) : LineEvents :=
  let r1 := observeMetrics floatFromFields fields "body_bytes_sent"
  let r2 := observeMetrics floatFromFields fields "request_length"
  let r3 := observeMetrics floatFromFieldsMulti fields "upstream_response_time"
  let r4 := observeMetrics floatFromFieldsMulti fields "upstream_connect_time"
  let r5 := observeMetrics floatFromFields fields "request_time"
  { parseErrInc := r1.errInc + r2.errInc + r3.errInc + r4.errInc + r5.errInc
    responseBytes := if r1.ok then some r1.value else none
    requestBytes := if r2.ok then some r2.value else none
    upstreamTime := if r3.ok then some r3.value else none
    upstreamConnectTime := if r4.ok then some r4.value else none
    responseTime := if r5.ok then some r5.value else none }

/-- Append an `Add`/`Observe` event to a metric's event log when an
observation was made. -/
def appendOpt (l : List (List String × ℚ)) (labels : List String) :
    Option ℚ → List (List String × ℚ)
  | some v => l ++ [(labels, v)]
  | none => l

/-- Apply the observations of one line to the metric collection: `Add`/
`Observe` calls append `(labels, value)` events (durations going to both the
summary and the histogram), failed extractions increment the parse-error
counter. -/
def applyEvents (m : Metrics) (labels : List String) (ev : LineEvents) : Metrics :=
  { m with
    parseErrorsTotal := m.parseErrorsTotal + ev.parseErrInc
    responseBytesTotal := appendOpt m.responseBytesTotal labels ev.responseBytes
    requestBytesTotal := appendOpt m.requestBytesTotal labels ev.requestBytes
    upstreamSeconds := appendOpt m.upstreamSeconds labels ev.upstreamTime
    upstreamSecondsHist := appendOpt m.upstreamSecondsHist labels ev.upstreamTime
    upstreamConnectSeconds := appendOpt m.upstreamConnectSeconds labels ev.upstreamConnectTime
    upstreamConnectSecondsHist :=
      appendOpt m.upstreamConnectSecondsHist labels ev.upstreamConnectTime
    responseSeconds := appendOpt m.responseSeconds labels ev.responseTime
    responseSecondsHist := appendOpt m.responseSecondsHist labels ev.responseTime }

/-! ## The per-line loop and the source pipeline (`processSource`, main.go) -/

/-- One iteration's input: the line parser's result for this raw line
(`none` = parse failure; the parser is an external collaborator), and the
wall-clock second at which the line is handled. -/
structure LineInput where
  parsed : Option Fields
  now : Int

/-- The mutable state owned by one source pipeline: the label vector, the
distinct-user tracker, and the shared metric collection (restricted to this
pipeline's updates). -/
structure PipelineState where
  labelValues : List String
  users : List (String × Int)
  metrics : Metrics
deriving DecidableEq, Repr

/-- The counter-excluded label vector used for every metric except the
total-count counter: strip the OnlyCounter slots when at least one
OnlyCounter rule is configured, else the full vector. -/
def notCounterLabels (hasCounterOnlyLabels : Bool) (relabelings : List Rule)
    (labelValues : List String) : List String :=
  if hasCounterOnlyLabels then stripOnlyCounterValues labelValues relabelings
  else labelValues

/-- Embedding of the body of the `for line := range t.Lines()` loop of
`processSource`.  A parser failure increments the parse-error counter and
skips the line.  Otherwise: filter fields, run the relabeling loop over the
label vector, derive the counter-excluded vector, update count-total, the
distinct-user gauge (when the interval is positive; the 15-second pruning
goroutine is concurrency outside this embedding), and the five numeric
metrics. -/
def processLine (nsCfg : NamespaceConfig) (hasCounterOnlyLabels : Bool)
    (relabelings : List Rule) (relabelLabelOffset : Nat)
    (input : LineInput) (st : PipelineState) : PipelineState :=
  match input.parsed with
  | none =>
    { st with metrics :=
        { st.metrics with parseErrorsTotal := st.metrics.parseErrorsTotal + 1 } }
  | some parsedFields =>
    let fields := filterFields parsedFields nsCfg
    let labelValues := applyRelabelings relabelings fields relabelLabelOffset st.labelValues
    let notCounterValues := notCounterLabels hasCounterOnlyLabels relabelings labelValues
    let usersStep :=
      if nsCfg.metricsConfig.currentUserInterval > 0 then
        observeCurrentUsers fields st.users input.now
      else ((0, false), st.users)
    let m0 := st.metrics
    let m1 :=
      if nsCfg.metricsConfig.disableCountTotal ≠ true then
        { m0 with countTotal := m0.countTotal ++ [labelValues] }
      else m0
    let m2 :=
      if usersStep.1.2 then
        { m1 with currentUsers := m1.currentUsers ++ [(notCounterValues, usersStep.1.1)] }
      else m1
    { labelValues := labelValues
      users := usersStep.2
      metrics := applyEvents m2 notCounterValues (observeLine fields) }

/-- The line loop: process the lines of the source in order. -/
def processLines (nsCfg : NamespaceConfig) (hasCounterOnlyLabels : Bool)
    (relabelings : List Rule) (relabelLabelOffset : Nat) :
    PipelineState → List LineInput → PipelineState
  | st, [] => st
  | st, input :: rest =>
    processLines nsCfg hasCounterOnlyLabels relabelings relabelLabelOffset
      (processLine nsCfg hasCounterOnlyLabels relabelings relabelLabelOffset input st) rest

/-- The constant `maxStaticLabels = 128` (main.go). -/
def maxStaticLabels : Nat := 128

/-- The derived relabeling rule list of `processSource`:
`NewRelabelings(nsCfg.RelabelConfigs)` followed by `DefaultRelabelings`
(passed in as `defaults`, since the built-in list lives in the external
`pkg/relabeling` package), deduplicated, with excluded rules stripped. -/
def sourceRelabelings (nsCfg : NamespaceConfig) (defaults : List Rule) : List Rule :=
  stripExcluded (uniqueRelabelings (nsCfg.relabelConfigs ++ defaults))

/-- Embedding of `processSource` (main.go): derive the rule list and the
static label values, fail fatally if the total label count exceeds
`maxStaticLabels` (before any line is read and before any metric is
touched), otherwise initialize the label vector with the static values
followed by empty relabel slots and run the line loop.
`hasCounterOnlyLabels` is computed (in `processNamespace`) from the
namespace's configured relabelings. -/
def processSource (nsCfg : NamespaceConfig) (defaults : List Rule)
    (lines : List LineInput) : Except String PipelineState :=
  let relabelings := sourceRelabelings nsCfg defaults
  let staticLabelValues := (orderLabels nsCfg.labels).2
  let totalLabelCount := staticLabelValues.length + relabelings.length
  let relabelLabelOffset := staticLabelValues.length
  if totalLabelCount > maxStaticLabels then
    Except.error "configured label count exceeds the maximum count of 128"
  else
    let hasCounterOnlyLabels := nsCfg.relabelConfigs.any (·.onlyCounter)
    Except.ok (processLines nsCfg hasCounterOnlyLabels relabelings relabelLabelOffset
      { labelValues := staticLabelValues ++ List.replicate relabelings.length ""
        users := []
        metrics := emptyMetrics }
      lines)

/-- A namespace configuration with no static labels, no rules, and nothing
disabled; used to instantiate theorems at concrete inputs. -/
def plainNamespace : NamespaceConfig :=
  ⟨[], [], ⟨0, false, false, false, false, false, false⟩⟩

/-- A namespace configuration with one static label; used to instantiate
theorems at concrete inputs. -/
def oneLabelNamespace : NamespaceConfig :=
  ⟨[("env", "prod")], [], ⟨0, false, false, false, false, false, false⟩⟩

/-- A namespace configuration with 129 relabeling rules (distinct target
labels, none excluded), exceeding `maxStaticLabels`. -/
def overflowNamespace : NamespaceConfig :=
  ⟨[],
    (List.range 129).map
      (fun i => ⟨String.mk (List.replicate i 'a'), "f", false, false, fun s => some s⟩),
    ⟨0, false, false, false, false, false, false⟩⟩

/-- The pipeline state with an empty label vector, no tracked users and fresh
metrics; the initial state of a source with no labels at all. -/
def plainState : PipelineState := ⟨[], [], emptyMetrics⟩

/-- The five well-known numeric fields observed by the line loop. -/
def recognizedNumericFields : List String :=
  ["body_bytes_sent", "request_length", "upstream_response_time",
   "upstream_connect_time", "request_time"]

/-- The extractor the line loop applies to a recognized numeric field: the
multi-value extractor for the two upstream fields, the single-value extractor
for the others. -/
def lineExtractor (name : String) : Fields → String → Extraction :=
  if name = "upstream_response_time" ∨ name = "upstream_connect_time" then
    floatFromFieldsMulti
  else floatFromFields

/-- The observation the line loop makes for a given recognized numeric
field. -/
def lineComponent (ev : LineEvents) (name : String) : Option ℚ :=
  if name = "body_bytes_sent" then ev.responseBytes
  else if name = "request_length" then ev.requestBytes
  else if name = "upstream_response_time" then ev.upstreamTime
  else if name = "upstream_connect_time" then ev.upstreamConnectTime
  else ev.responseTime

/-! ## Spec-side definitions (for comparing the code against the spec's words)

These follow the wording of the spec, not the code: the multi-value tokens of
a field value are obtained "by splitting the field's value on commas and
colons, excluding tokens equal to `-` after trimming", and the aggregated
observation is "the sum of all non-`-` entries". -/

/-- The spec's token list of a multi-value field: split on `,`/`:`, trim each
token, drop the `"-"` tokens. -/
def specMultiTokens (val : String) : List String :=
  ((fieldsFuncSplit val).map trimSpace).filter (· ≠ "-")

/-- The spec's aggregated observation: the sum of the parseable tokens (equal
to the sum of all tokens whenever every token parses). -/
def specMultiSum (val : String) : ℚ :=
  (((specMultiTokens val).filterMap parseFloat)).sum

/-- Does some non-`-` token fail to parse as a float? -/
def specHasBadToken (val : String) : Bool :=
  (specMultiTokens val).any (fun t => (parseFloat t).isNone)

/-! ## Helper lemmas: characters, splitting, trimming -/

theorem mem_takeWhile_pred {α : Type} (p : α → Bool) :
    ∀ (l : List α) (a : α), a ∈ l.takeWhile p → p a = true := by
  intro l
  induction l with
  | nil => intro a h; simp [List.takeWhile] at h
  | cons x xs ih =>
    intro a h
    by_cases hx : p x = true
    · rw [List.takeWhile_cons, if_pos hx] at h
      rcases List.mem_cons.mp h with rfl | h'
      · exact hx
      · exact ih a h'
    · rw [List.takeWhile_cons, if_neg hx] at h
      simp at h

theorem dropWhile_eq_self_of {α : Type} (p : α → Bool) (cs : List α)
    (h : ∀ c ∈ cs, p c = false) : cs.dropWhile p = cs := by
  cases cs with
  | nil => rfl
  | cons c rest =>
    rw [List.dropWhile_cons, if_neg]
    rw [h c (List.mem_cons_self c rest)]
    simp

theorem trimSpace_eq_self (s : String) (h : ∀ c ∈ s.toList, isSpace c = false) :
    trimSpace s = s := by
  have h1 : s.toList.dropWhile isSpace = s.toList := dropWhile_eq_self_of _ _ h
  have h2 : s.toList.reverse.dropWhile isSpace = s.toList.reverse :=
    dropWhile_eq_self_of _ _ (fun c hc => h c (List.mem_reverse.mp hc))
  show (⟨trimChars s.toList⟩ : String) = s
  rw [trimChars, h1, h2, List.reverse_reverse]
  rfl

theorem splitSeps_of_no_sep (cs : List Char) (h : ∀ c ∈ cs, isSep c = false) :
    splitSeps cs = [cs] := by
  induction cs with
  | nil => rfl
  | cons c rest ih =>
    have hrest := ih (fun x hx => h x (List.mem_cons_of_mem _ hx))
    have hc := h c (List.mem_cons_self c rest)
    rw [splitSeps, hrest]
    simp [hc]

theorem parseUnsigned_chars (cs : List Char) (q : ℚ) (h : parseUnsigned cs = some q) :
    ∀ c ∈ cs, isDigit c = true ∨ c = '.' := by
  intro c hc
  have hsplit : cs.takeWhile isDigit ++ cs.dropWhile isDigit = cs :=
    List.takeWhile_append_dropWhile isDigit cs
  rcases hdrop : cs.dropWhile isDigit with _ | ⟨d, frac⟩
  · rw [hdrop, List.append_nil] at hsplit
    rw [← hsplit] at hc
    exact Or.inl (mem_takeWhile_pred _ _ _ hc)
  · rw [hdrop] at hsplit
    simp only [parseUnsigned, hdrop] at h
    by_cases hd : d = '.'
    · subst hd
      rw [if_pos rfl] at h
      have hfrac : frac.all isDigit = true := by
        by_cases hf : frac.all isDigit = true
        · exact hf
        · exfalso
          by_cases he : ((cs.takeWhile isDigit).isEmpty && frac.isEmpty) = true
          · rw [if_pos he] at h; cases h
          · rw [if_neg he, if_neg hf] at h; cases h
      rw [← hsplit] at hc
      rcases List.mem_append.mp hc with h1 | h2
      · exact Or.inl (mem_takeWhile_pred _ _ _ h1)
      · rcases List.mem_cons.mp h2 with rfl | h3
        · exact Or.inr rfl
        · exact Or.inl (List.all_eq_true.mp hfrac _ h3)
    · rw [if_neg hd] at h; cases h

theorem parseFloat_chars (s : String) (q : ℚ) (h : parseFloat s = some q) :
    ∀ c ∈ s.toList, isDigit c = true ∨ c = '.' ∨ c = '-' ∨ c = '+' := by
  intro c hc
  rcases hl : s.toList with _ | ⟨x, rest⟩
  · rw [hl] at hc; simp at hc
  · simp only [parseFloat, hl] at h
    rw [hl] at hc
    by_cases hx : x = '-'
    · subst hx
      rw [if_pos rfl] at h
      rcases hp : parseUnsigned rest with _ | f
      · rw [hp] at h; cases h
      · rcases List.mem_cons.mp hc with rfl | h2
        · exact Or.inr (Or.inr (Or.inl rfl))
        · rcases parseUnsigned_chars rest f hp c h2 with h3 | h3
          · exact Or.inl h3
          · exact Or.inr (Or.inl h3)
    · rw [if_neg hx] at h
      by_cases hx' : x = '+'
      · subst hx'
        rw [if_pos rfl] at h
        rcases List.mem_cons.mp hc with rfl | h2
        · exact Or.inr (Or.inr (Or.inr rfl))
        · rcases parseUnsigned_chars rest q h c h2 with h3 | h3
          · exact Or.inl h3
          · exact Or.inr (Or.inl h3)
      · rw [if_neg hx'] at h
        rcases parseUnsigned_chars _ q h c hc with h3 | h3
        · exact Or.inl h3
        · exact Or.inr (Or.inl h3)

theorem plain_char_not_sep_space (c : Char)
    (h : isDigit c = true ∨ c = '.' ∨ c = '-' ∨ c = '+') :
    isSep c = false ∧ isSpace c = false := by
  rcases h with h | rfl | rfl | rfl
  · constructor
    · by_contra hs
      have hs' : isSep c = true := by revert hs; cases isSep c <;> simp
      rcases (by simpa [isSep] using hs' : c = ',' ∨ c = ':') with rfl | rfl
      · exact absurd h (by decide)
      · exact absurd h (by decide)
    · by_contra hs
      have hs' : isSpace c = true := by revert hs; cases isSpace c <;> simp
      rcases (by simpa [isSpace, or_assoc] using hs' :
          c = ' ' ∨ c = '\t' ∨ c = '\n' ∨ c = '\r') with
        rfl | rfl | rfl | rfl <;> exact absurd h (by decide)
  · decide
  · decide
  · decide

theorem mk_toList (s : String) : (⟨s.toList⟩ : String) = s := rfl

theorem parseFloat_nonempty (s : String) (q : ℚ) (h : parseFloat s = some q) :
    s.toList ≠ [] := by
  intro hl
  simp only [parseFloat, hl] at h
  exact Option.noConfusion h

/-- A value that parses as a single float splits into exactly itself: it has
no delimiter and no whitespace characters and is not `"-"`. -/
theorem parseFloat_single_token (val : String) (f : ℚ) (h : parseFloat val = some f) :
    fieldsFuncSplit val = [val] ∧ trimSpace val = val ∧ val ≠ "-" := by
  have hchars := parseFloat_chars val f h
  have hns : ∀ c ∈ val.toList, isSep c = false :=
    fun c hc => (plain_char_not_sep_space c (hchars c hc)).1
  have hnsp : ∀ c ∈ val.toList, isSpace c = false :=
    fun c hc => (plain_char_not_sep_space c (hchars c hc)).2
  refine ⟨?_, trimSpace_eq_self val hnsp, ?_⟩
  · rw [fieldsFuncSplit, splitSeps_of_no_sep _ hns]
    have hne : val.toList ≠ [] := parseFloat_nonempty val f h
    simp only [List.filter_cons, List.filter_nil]
    rw [if_pos (by simpa using hne)]
    simp only [List.map_cons, List.map_nil]
    rw [mk_toList]
  · intro hv
    subst hv
    have hnone : parseFloat "-" = none := by decide
    rw [hnone] at h
    exact Option.noConfusion h

/-- For a single-float value the spec-side token list is just the value. -/
theorem specMultiTokens_single (val : String) (f : ℚ) (h : parseFloat val = some f) :
    specMultiTokens val = [val] := by
  obtain ⟨h1, h2, h3⟩ := parseFloat_single_token val f h
  rw [specMultiTokens, h1, List.map_cons, List.map_nil, h2, List.filter_cons, List.filter_nil]
  simp [h3]

/-! ## Helper lemmas: the multi-value summation loop -/

theorem sumMulti_eq_none_iff (ts : List String) (acc : ℚ) :
    sumMulti ts acc = none ↔
      ∃ t ∈ ts, trimSpace t ≠ "-" ∧ parseFloat (trimSpace t) = none := by
  induction ts generalizing acc with
  | nil => simp [sumMulti]
  | cons t rest ih =>
    simp only [sumMulti]
    by_cases hd : trimSpace t = "-"
    · rw [if_pos hd, ih]
      constructor
      · rintro ⟨u, hu, hne, hp⟩
        exact ⟨u, List.mem_cons_of_mem _ hu, hne, hp⟩
      · rintro ⟨u, hu, hne, hp⟩
        rcases List.mem_cons.mp hu with rfl | hu'
        · exact absurd hd hne
        · exact ⟨u, hu', hne, hp⟩
    · rw [if_neg hd]
      rcases hp : parseFloat (trimSpace t) with _ | f
      · simp only [true_iff]
        exact ⟨t, List.mem_cons_self t rest, hd, hp⟩
      · rw [ih]
        constructor
        · rintro ⟨u, hu, hne, hpu⟩
          exact ⟨u, List.mem_cons_of_mem _ hu, hne, hpu⟩
        · rintro ⟨u, hu, hne, hpu⟩
          rcases List.mem_cons.mp hu with rfl | hu'
          · rw [hp] at hpu; cases hpu
          · exact ⟨u, hu', hne, hpu⟩

theorem sumMulti_eq_some (ts : List String) :
    ∀ (acc s : ℚ), sumMulti ts acc = some s →
      s = acc + (((ts.map trimSpace).filter (· ≠ "-")).filterMap parseFloat).sum := by
  induction ts with
  | nil =>
    intro acc s h
    simp only [sumMulti, Option.some.injEq] at h
    simp [← h]
  | cons t rest ih =>
    intro acc s h
    simp only [sumMulti] at h
    by_cases hd : trimSpace t = "-"
    · rw [if_pos hd] at h
      have := ih acc s h
      simpa [hd] using this
    · rw [if_neg hd] at h
      rcases hp : parseFloat (trimSpace t) with _ | f
      · rw [hp] at h; cases h
      · rw [hp] at h
        have := ih (qadd acc f) s h
        rw [this, qadd_eq]
        simp [hd, hp]
        ring

theorem specHasBadToken_iff (val : String) :
    specHasBadToken val = true ↔
      ∃ t ∈ fieldsFuncSplit val, trimSpace t ≠ "-" ∧ parseFloat (trimSpace t) = none := by
  simp only [specHasBadToken, List.any_eq_true, specMultiTokens, List.mem_filter,
    List.mem_map, Option.isNone_iff_eq_none]
  constructor
  · rintro ⟨u, ⟨⟨t, ht, rfl⟩, hne⟩, hbad⟩
    exact ⟨t, ht, by simpa using hne, hbad⟩
  · rintro ⟨t, ht, hne, hbad⟩
    exact ⟨trimSpace t, ⟨⟨t, ht, rfl⟩, by simpa using hne⟩, hbad⟩

theorem sumMulti_fieldsFunc_some (val : String) (s : ℚ)
    (h : sumMulti (fieldsFuncSplit val) 0 = some s) : s = specMultiSum val := by
  have := sumMulti_eq_some (fieldsFuncSplit val) 0 s h
  simpa [specMultiSum, specMultiTokens] using this

/-- Full characterization of `floatFromFieldsMulti` on a present field whose
value is not the bare skip sentinel `"-"`: a bad token fails the whole
observation, otherwise the observation is the spec's token sum. -/
theorem floatFromFieldsMulti_spec (fields : Fields) (name val : String)
    (hlook : lookupField fields name = some val) (hval : val ≠ "-") :
    floatFromFieldsMulti fields name =
      if specHasBadToken val then ⟨0, false, true⟩ else ⟨specMultiSum val, true, false⟩ := by
  rcases hp : parseFloat val with _ | f
  · have hff : floatFromFields fields name = ⟨0, false, true⟩ := by
      simp only [floatFromFields, hlook, if_neg hval, hp]
    rw [floatFromFieldsMulti, hff]
    simp only [Bool.true_eq_false, if_false, hlook]
    by_cases hb : specHasBadToken val = true
    · have hnone : sumMulti (fieldsFuncSplit val) 0 = none := by
        rw [sumMulti_eq_none_iff]
        exact (specHasBadToken_iff val).mp hb
      rw [hnone, hb]
      simp
    · obtain ⟨s, hs⟩ : ∃ s, sumMulti (fieldsFuncSplit val) 0 = some s := by
        rcases hsm : sumMulti (fieldsFuncSplit val) 0 with _ | s
        · exact absurd ((specHasBadToken_iff val).mpr ((sumMulti_eq_none_iff _ _).mp hsm)) hb
        · exact ⟨s, rfl⟩
      rw [hs, if_neg hb, sumMulti_fieldsFunc_some val s hs]
  · have hff : floatFromFields fields name = ⟨f, true, false⟩ := by
      simp only [floatFromFields, hlook, if_neg hval, hp]
    have htok := specMultiTokens_single val f hp
    have hb : specHasBadToken val = false := by
      rw [specHasBadToken, htok]
      simp [hp]
    have hsum : specMultiSum val = f := by
      rw [specMultiSum, htok]
      simp [hp]
    rw [floatFromFieldsMulti, hff]
    simp only [hb, if_false, hsum, Bool.false_eq_true]
    rfl

/-! ## Claim C1: multi-value numeric aggregation -/

/-- Claim C1. For every field mapping containing a multi-value field, any
recorded observation equals the sum of the comma/colon-separated tokens
(trimmed, `"-"` tokens excluded); if some non-`"-"` token fails to parse, the
extraction errors, no observation is recorded, and the parse-error counter is
incremented; when the (non-`"-"`) value's tokens all parse, the sum is
observed with no error.  In particular `"0.001,0.002:0.003"` yields `0.006`,
`"0.001, -, 0.002"` yields `0.003`, and `"0.001,x,0.002"` yields a parse
error with no observation. -/
theorem C1_multi_value_aggregation :
    (∀ fields name val s e, lookupField fields name = some val →
       floatFromFieldsMulti fields name = ⟨s, true, e⟩ →
       s = specMultiSum val ∧ e = false) ∧
    (∀ fields name val, lookupField fields name = some val →
       specHasBadToken val = true →
       floatFromFieldsMulti fields name = ⟨0, false, true⟩ ∧
       observeMetrics floatFromFieldsMulti fields name = ⟨0, false, 1⟩) ∧
    (∀ fields name val, lookupField fields name = some val → val ≠ "-" →
       specHasBadToken val = false →
       floatFromFieldsMulti fields name = ⟨specMultiSum val, true, false⟩ ∧
       observeMetrics floatFromFieldsMulti fields name = ⟨specMultiSum val, true, 0⟩) ∧
    floatFromFieldsMulti [("upstream_response_time", "0.001,0.002:0.003")]
      "upstream_response_time" = ⟨mkRat 6 1000, true, false⟩ ∧
    (mkRat 6 1000 : ℚ) = 6 / 1000 ∧
    floatFromFieldsMulti [("upstream_response_time", "0.001, -, 0.002")]
      "upstream_response_time" = ⟨mkRat 3 1000, true, false⟩ ∧
    (mkRat 3 1000 : ℚ) = 3 / 1000 ∧
    observeMetrics floatFromFieldsMulti [("upstream_response_time", "0.001,x,0.002")]
      "upstream_response_time" = ⟨0, false, 1⟩ := by
  refine ⟨?_, ?_, ?_, by decide, ?_, by decide, ?_, by decide⟩
  · intro fields name val s e hlook heq
    by_cases hval : val = "-"
    · subst hval
      have hff : floatFromFields fields name = ⟨0, false, false⟩ := by
        simp [floatFromFields, hlook]
      rw [floatFromFieldsMulti, hff] at heq
      simp only [if_pos rfl] at heq
      exact absurd (congrArg Extraction.ok heq) (by simp)
    · rw [floatFromFieldsMulti_spec fields name val hlook hval] at heq
      by_cases hb : specHasBadToken val = true
      · rw [if_pos hb] at heq
        exact absurd (congrArg Extraction.ok heq) (by simp)
      · rw [if_neg hb] at heq
        exact ⟨(congrArg Extraction.value heq).symm, (congrArg Extraction.err heq).symm⟩
  · intro fields name val hlook hbad
    have hval : val ≠ "-" := by
      intro hv
      subst hv
      exact absurd hbad (by decide)
    have hres := floatFromFieldsMulti_spec fields name val hlook hval
    rw [if_pos hbad] at hres
    refine ⟨hres, ?_⟩
    rw [observeMetrics, hres]
    rfl
  · intro fields name val hlook hval hbad
    have hres := floatFromFieldsMulti_spec fields name val hlook hval
    rw [hbad] at hres
    simp only [Bool.false_eq_true, if_false] at hres
    refine ⟨hres, ?_⟩
    rw [observeMetrics, hres]
    rfl
  · rw [Rat.mkRat_eq_divInt, Rat.divInt_eq_div]
    norm_num
  · rw [Rat.mkRat_eq_divInt, Rat.divInt_eq_div]
    norm_num

/-- Witness for C1 at a concrete input. -/
theorem C1_multi_value_aggregation_witness :
    floatFromFieldsMulti [("u", "1,2")] "u" = ⟨specMultiSum "1,2", true, false⟩ ∧
    observeMetrics floatFromFieldsMulti [("u", "1,2")] "u" = ⟨specMultiSum "1,2", true, 0⟩ :=
  C1_multi_value_aggregation.2.2.1 [("u", "1,2")] "u" "1,2" (by decide) (by decide) (by decide)

/-! ## Claim C10: degenerate multi-value fields observe 0.0 -/

/-- Claim C10, counterexample. The value `"-"` belongs to the claimed class
(every comma/colon-separated trimmed token equals `"-"`), yet the multi-value
extractor does not record an observation for it: it returns
`(0, false, nil)` — the single-value fast path skips it — not `(0, true, nil)`
as the claim states for the whole class. -/
theorem C10_counterexample :
    (∀ t ∈ (fieldsFuncSplit "-").map trimSpace, t = "-") ∧
    floatFromFieldsMulti [("upstream_response_time", "-")] "upstream_response_time" =
      ⟨0, false, false⟩ := by
  constructor
  · decide
  · decide

/-- Claim C10, amended. For every field mapping in which a multi-value field is
present with a value *other than exactly `"-"`* none of whose comma/colon
trimmed tokens survives (the empty string, `"-,-"`, …), the extractor returns
`(0, true, nil)`, so a `0.0` observation is recorded into summary and
histogram; the value exactly `"-"` is skipped with no observation, exactly as
in the single-value case. -/
theorem C10_amended_degenerate_multi_value :
    (∀ fields name val, lookupField fields name = some val → val ≠ "-" →
       specMultiTokens val = [] →
       floatFromFieldsMulti fields name = ⟨0, true, false⟩ ∧
       observeMetrics floatFromFieldsMulti fields name = ⟨0, true, 0⟩) ∧
    (∀ fields name, lookupField fields name = some "-" →
       floatFromFieldsMulti fields name = ⟨0, false, false⟩ ∧
       floatFromFields fields name = ⟨0, false, false⟩ ∧
       observeMetrics floatFromFieldsMulti fields name = ⟨0, false, 0⟩) ∧
    (observeLine [("upstream_response_time", "-,-")]).upstreamTime = some 0 ∧
    (observeLine [("upstream_response_time", "")]).upstreamTime = some 0 ∧
    (processLine plainNamespace false [] 0
        ⟨some [("upstream_response_time", "-,-")], 0⟩ plainState).metrics.upstreamSeconds =
      [([], 0)] ∧
    (processLine plainNamespace false [] 0
        ⟨some [("upstream_response_time", "-,-")], 0⟩ plainState).metrics.upstreamSecondsHist =
      [([], 0)] := by
  refine ⟨?_, ?_, by decide, by decide, by decide, by decide⟩
  · intro fields name val hlook hval htok
    have hbad : specHasBadToken val = false := by
      rw [specHasBadToken, htok]
      rfl
    have hsum : specMultiSum val = 0 := by
      rw [specMultiSum, htok]
      rfl
    have hres := floatFromFieldsMulti_spec fields name val hlook hval
    rw [hbad] at hres
    simp only [Bool.false_eq_true, if_false, hsum] at hres
    refine ⟨hres, ?_⟩
    rw [observeMetrics, hres]
    rfl
  · intro fields name hlook
    have hff : floatFromFields fields name = ⟨0, false, false⟩ := by
      simp [floatFromFields, hlook]
    have hmulti : floatFromFieldsMulti fields name = ⟨0, false, false⟩ := by
      rw [floatFromFieldsMulti, hff]
      rfl
    refine ⟨hmulti, hff, ?_⟩
    rw [observeMetrics, hmulti]
    rfl

/-- Witness for the amended C10 at a concrete input. -/
theorem C10_amended_degenerate_multi_value_witness :
    floatFromFieldsMulti [("upstream_connect_time", "-,-")] "upstream_connect_time" =
      ⟨0, true, false⟩ ∧
    observeMetrics floatFromFieldsMulti [("upstream_connect_time", "-,-")]
      "upstream_connect_time" = ⟨0, true, 0⟩ :=
  C10_amended_degenerate_multi_value.1 [("upstream_connect_time", "-,-")]
    "upstream_connect_time" "-,-" (by decide) (by decide) (by decide)


/-! ## Claim C3: the field filter -/

/-- Claim C3. The filter's output contains a field with its original value iff
the input contains that field and it is not a well-known field whose disable
flag is set; the five well-known fields correspond exactly to their five
flags, and no value is ever altered. -/
theorem C3_field_filter :
    (∀ (fields : Fields) (nsCfg : NamespaceConfig) (f : String),
       lookupField (filterFields fields nsCfg) f =
         if disabledField nsCfg f then none else lookupField fields f) ∧
    (∀ (nsCfg : NamespaceConfig) (f : String),
       disabledField nsCfg f = true ↔
         ((f = "body_bytes_sent" ∧ nsCfg.metricsConfig.disableResponseBytesTotal = true) ∨
          (f = "request_length" ∧ nsCfg.metricsConfig.disableRequestBytesTotal = true) ∨
          (f = "upstream_response_time" ∧ nsCfg.metricsConfig.disableUpstreamSeconds = true) ∨
          (f = "upstream_connect_time" ∧
            nsCfg.metricsConfig.disableUpstreamConnectSeconds = true) ∨
          (f = "request_time" ∧ nsCfg.metricsConfig.disableResponseSeconds = true))) := by
  constructor
  · intro fields nsCfg f
    induction fields with
    | nil =>
      simp [filterFields, lookupField]
    | cons kv rest ih =>
      obtain ⟨k, v⟩ := kv
      by_cases hk : disabledField nsCfg k = true
      · have hpred : (!disabledField nsCfg k) = false := by rw [hk]; rfl
        rw [filterFields, List.filter_cons, hpred, if_neg (by simp)]
        rw [show List.filter (fun fv => !disabledField nsCfg fv.1) rest =
              filterFields rest nsCfg from rfl, ih]
        by_cases hf : k = f
        · subst hf
          rw [if_pos hk, if_pos hk]
        · rw [lookupField, if_neg hf]
      · have hk' : disabledField nsCfg k = false := by
          revert hk; cases disabledField nsCfg k <;> simp
        have hpred : (!disabledField nsCfg k) = true := by rw [hk']; rfl
        rw [filterFields, List.filter_cons, hpred, if_pos rfl]
        by_cases hf : k = f
        · subst hf
          rw [lookupField, if_pos rfl, lookupField, if_pos rfl, if_neg (by simp [hk'])]
        · rw [lookupField, if_neg hf, lookupField, if_neg hf]
          rw [show List.filter (fun fv => !disabledField nsCfg fv.1) rest =
                filterFields rest nsCfg from rfl, ih]
  · intro nsCfg f
    constructor
    · intro h
      rw [disabledField] at h
      split_ifs at h with h1 h2 h3 h4 h5
      · exact Or.inl ⟨h1, h⟩
      · exact Or.inr (Or.inl ⟨h2, h⟩)
      · exact Or.inr (Or.inr (Or.inl ⟨h3, h⟩))
      · exact Or.inr (Or.inr (Or.inr (Or.inl ⟨h4, h⟩)))
      · exact Or.inr (Or.inr (Or.inr (Or.inr ⟨h5, h⟩)))
    · rintro (⟨rfl, h⟩ | ⟨rfl, h⟩ | ⟨rfl, h⟩ | ⟨rfl, h⟩ | ⟨rfl, h⟩) <;>
        simp [disabledField, h]

/-! ## Claim C5: a parser failure is non-fatal and isolated -/

/-- Claim C5. On a line the parser fails to parse, the pipeline increments the
parse-error counter exactly once and changes nothing else (no relabeling
write, no metric event, no user tracking), and the loop continues with the
remaining lines; the failure is not the pipeline's terminal result. -/
theorem C5_parser_failure_non_fatal :
    ∀ (nsCfg : NamespaceConfig) (hasCO : Bool) (rl : List Rule) (off : Nat)
      (st : PipelineState) (now : Int) (rest : List LineInput),
      processLine nsCfg hasCO rl off ⟨none, now⟩ st =
        { st with metrics :=
            { st.metrics with parseErrorsTotal := st.metrics.parseErrorsTotal + 1 } } ∧
      processLines nsCfg hasCO rl off st (⟨none, now⟩ :: rest) =
        processLines nsCfg hasCO rl off
          { st with metrics :=
              { st.metrics with parseErrorsTotal := st.metrics.parseErrorsTotal + 1 } }
          rest :=
  fun _ _ _ _ _ _ _ => ⟨rfl, rfl⟩

/-! ## Helper lemmas: the relabeling loop's footprint on the label vector -/

theorem applyRelabelings_length (rules : List Rule) (fields : Fields) :
    ∀ (idx : Nat) (lv : List String),
      (applyRelabelings rules fields idx lv).length = lv.length := by
  induction rules with
  | nil => intro idx lv; rfl
  | cons r rest ih =>
    intro idx lv
    rcases hl : lookupField fields r.sourceValue with _ | str
    · simp only [applyRelabelings, hl]
      exact ih _ _
    · rcases hm : r.map str with _ | mapped
      · simp only [applyRelabelings, hl, hm]
        exact ih _ _
      · simp only [applyRelabelings, hl, hm]
        rw [ih]
        exact List.length_set lv idx mapped

theorem applyRelabelings_get?_lt (rules : List Rule) (fields : Fields) :
    ∀ (idx j : Nat) (lv : List String), j < idx →
      (applyRelabelings rules fields idx lv).get? j = lv.get? j := by
  induction rules with
  | nil => intro idx j lv _; rfl
  | cons r rest ih =>
    intro idx j lv h
    rcases hl : lookupField fields r.sourceValue with _ | str
    · simp only [applyRelabelings, hl]
      exact ih (idx + 1) j lv (Nat.lt_succ_of_lt h)
    · rcases hm : r.map str with _ | mapped
      · simp only [applyRelabelings, hl, hm]
        exact ih (idx + 1) j lv (Nat.lt_succ_of_lt h)
      · simp only [applyRelabelings, hl, hm]
        rw [ih (idx + 1) j _ (Nat.lt_succ_of_lt h)]
        exact List.get?_set_ne mapped lv (Nat.ne_of_gt h)

/-- The relabeling loop leaves a rule's slot untouched whenever the rule's
source field is absent from the (filtered) mapping or the value-transform
fails on the present value. -/
theorem applyRelabelings_skip (rules : List Rule) (fields : Fields) :
    ∀ (idx i : Nat) (h : i < rules.length) (lv : List String),
      (∀ str, lookupField fields (rules.get ⟨i, h⟩).sourceValue = some str →
        (rules.get ⟨i, h⟩).map str = none) →
      (applyRelabelings rules fields idx lv).get? (idx + i) = lv.get? (idx + i) := by
  induction rules with
  | nil => intro idx i h; exact absurd h (Nat.not_lt_zero i)
  | cons r rest ih =>
    intro idx i h lv hskip
    cases i with
    | zero =>
      simp only [List.get] at hskip
      rcases hl : lookupField fields r.sourceValue with _ | str
      · simp only [applyRelabelings, hl, Nat.add_zero]
        exact applyRelabelings_get?_lt rest fields (idx + 1) idx lv (Nat.lt_succ_self idx)
      · have hm := hskip str hl
        simp only [applyRelabelings, hl, hm, Nat.add_zero]
        exact applyRelabelings_get?_lt rest fields (idx + 1) idx lv (Nat.lt_succ_self idx)
    | succ i' =>
      have h' : i' < rest.length := Nat.lt_of_succ_lt_succ h
      have hget : (r :: rest).get ⟨i' + 1, h⟩ = rest.get ⟨i', h'⟩ := rfl
      rw [hget] at hskip
      have harith : idx + (i' + 1) = (idx + 1) + i' := by omega
      rw [harith]
      rcases hl : lookupField fields r.sourceValue with _ | str
      · simp only [applyRelabelings, hl]
        exact ih (idx + 1) i' h' lv hskip
      · rcases hm : r.map str with _ | mapped
        · simp only [applyRelabelings, hl, hm]
          exact ih (idx + 1) i' h' lv hskip
        · simp only [applyRelabelings, hl, hm]
          rw [ih (idx + 1) i' h' _ hskip]
          exact List.get?_set_ne mapped lv (by omega)

/-- The label vector a successfully parsed line leaves behind is the
relabeling loop's output on the filtered fields. -/
theorem processLine_labelValues (nsCfg : NamespaceConfig) (hasCO : Bool)
    (rl : List Rule) (off : Nat) (input : LineInput) (st : PipelineState)
    (pfields : Fields) (hp : input.parsed = some pfields) :
    (processLine nsCfg hasCO rl off input st).labelValues =
      applyRelabelings rl (filterFields pfields nsCfg) off st.labelValues := by
  obtain ⟨parsed, now⟩ := input
  cases hp
  rfl

/-- A parser-failure line leaves the label vector unchanged. -/
theorem processLine_labelValues_none (nsCfg : NamespaceConfig) (hasCO : Bool)
    (rl : List Rule) (off : Nat) (input : LineInput) (st : PipelineState)
    (hp : input.parsed = none) :
    (processLine nsCfg hasCO rl off input st).labelValues = st.labelValues := by
  obtain ⟨parsed, now⟩ := input
  cases hp
  rfl

/-! ## Claim C2: relabeling slot carry-forward -/

/-- Claim C2. If the filtered field mapping lacks rule `i`'s source field, or
the rule's value-transform fails on the present value, then processing the
line leaves the label-vector slot `staticLabelCount + i` exactly as it was;
and before the first line, every relabel slot holds the empty string. -/
theorem C2_relabel_slot_carry_forward :
    (∀ (nsCfg : NamespaceConfig) (hasCO : Bool) (rl : List Rule) (off : Nat)
       (st : PipelineState) (input : LineInput) (pfields : Fields)
       (i : Nat) (h : i < rl.length),
       input.parsed = some pfields →
       (∀ str, lookupField (filterFields pfields nsCfg) (rl.get ⟨i, h⟩).sourceValue = some str →
          (rl.get ⟨i, h⟩).map str = none) →
       (processLine nsCfg hasCO rl off input st).labelValues.get? (off + i) =
         st.labelValues.get? (off + i)) ∧
    (∀ (staticLabelValues : List String) (n : Nat),
       (staticLabelValues ++ List.replicate n "").drop staticLabelValues.length =
         List.replicate n "") := by
  constructor
  · intro nsCfg hasCO rl off st input pfields i h hp hskip
    rw [processLine_labelValues nsCfg hasCO rl off input st pfields hp]
    exact applyRelabelings_skip rl (filterFields pfields nsCfg) off i h st.labelValues hskip
  · intro staticLabelValues n
    exact List.drop_left staticLabelValues (List.replicate n "")

/-- Witness for C2: a rule whose transform always fails leaves its slot (the
one after the static prefix) untouched. -/
theorem C2_relabel_slot_carry_forward_witness :
    (processLine oneLabelNamespace false [⟨"lbl", "status", false, false, fun _ => none⟩] 1
        ⟨some [("status", "200")], 0⟩ ⟨["prod", "x"], [], emptyMetrics⟩).labelValues.get? 1 =
      (⟨["prod", "x"], [], emptyMetrics⟩ : PipelineState).labelValues.get? 1 ∧
    ((["prod"] : List String) ++ List.replicate 1 "").drop (["prod"] : List String).length =
      List.replicate 1 "" :=
  ⟨C2_relabel_slot_carry_forward.1 oneLabelNamespace false
      [⟨"lbl", "status", false, false, fun _ => none⟩] 1 ⟨["prod", "x"], [], emptyMetrics⟩
      ⟨some [("status", "200")], 0⟩ [("status", "200")] 0 (by decide) rfl
      (fun str _ => rfl),
   C2_relabel_slot_carry_forward.2 ["prod"] 1⟩

/-! ## Claim C9: the static label segment is never overwritten -/

theorem take_ext_of_get? {l₁ l₂ : List String} (n : Nat)
    (h : ∀ j, j < n → l₁.get? j = l₂.get? j) : l₁.take n = l₂.take n := by
  apply List.ext
  intro j
  by_cases hj : j < n
  · rw [List.get?_take hj, List.get?_take hj, h j hj]
  · have hn : n ≤ j := Nat.le_of_not_lt hj
    have h1 : (l₁.take n).length ≤ j :=
      le_trans (by rw [List.length_take]; exact min_le_left _ _) hn
    have h2 : (l₂.take n).length ≤ j :=
      le_trans (by rw [List.length_take]; exact min_le_left _ _) hn
    rw [List.get?_eq_none.mpr h1, List.get?_eq_none.mpr h2]

/-- No step of the line loop writes a label-vector index below the relabel
offset. -/
theorem processLine_static_frame (nsCfg : NamespaceConfig) (hasCO : Bool)
    (rl : List Rule) (off : Nat) (input : LineInput) (st : PipelineState)
    (j : Nat) (hj : j < off) :
    (processLine nsCfg hasCO rl off input st).labelValues.get? j =
      st.labelValues.get? j := by
  rcases hp : input.parsed with _ | pfields
  · rw [processLine_labelValues_none nsCfg hasCO rl off input st hp]
  · rw [processLine_labelValues nsCfg hasCO rl off input st pfields hp]
    exact applyRelabelings_get?_lt rl _ off j st.labelValues hj

theorem processLines_static_take (nsCfg : NamespaceConfig) (hasCO : Bool)
    (rl : List Rule) (off : Nat) (lines : List LineInput) :
    ∀ st : PipelineState,
      (processLines nsCfg hasCO rl off st lines).labelValues.take off =
        st.labelValues.take off := by
  induction lines with
  | nil => intro st; rfl
  | cons input rest ih =>
    intro st
    rw [processLines, ih]
    exact take_ext_of_get? off
      (fun j hj => processLine_static_frame nsCfg hasCO rl off input st j hj)

/-- Claim C9. The first `staticLabelCount` entries of the pipeline's label
vector always equal the namespace's `OrderedLabelValues`: no per-line step
writes an index below the offset, and any state a full `processSource` run
returns carries the static values in its first segment. -/
theorem C9_static_label_segment :
    (∀ (nsCfg : NamespaceConfig) (hasCO : Bool) (rl : List Rule) (off : Nat)
       (input : LineInput) (st : PipelineState) (j : Nat), j < off →
       (processLine nsCfg hasCO rl off input st).labelValues.get? j =
         st.labelValues.get? j) ∧
    (∀ (nsCfg : NamespaceConfig) (defaults : List Rule) (lines : List LineInput)
       (st : PipelineState),
       processSource nsCfg defaults lines = Except.ok st →
       st.labelValues.take (orderLabels nsCfg.labels).2.length =
         (orderLabels nsCfg.labels).2) := by
  constructor
  · intro nsCfg hasCO rl off input st j hj
    exact processLine_static_frame nsCfg hasCO rl off input st j hj
  · intro nsCfg defaults lines st h
    rw [processSource] at h
    by_cases hguard : (orderLabels nsCfg.labels).2.length +
        (sourceRelabelings nsCfg defaults).length > maxStaticLabels
    · rw [if_pos hguard] at h
      exact absurd h (by simp)
    · rw [if_neg hguard] at h
      have hst := (Except.ok.injEq _ _).mp h
      rw [← hst, processLines_static_take]
      show ((orderLabels nsCfg.labels).2 ++
          List.replicate (sourceRelabelings nsCfg defaults).length "").take
            (orderLabels nsCfg.labels).2.length = (orderLabels nsCfg.labels).2
      exact List.take_left _ _

/-- Witness for C9 at a concrete configuration with one static label. -/
theorem C9_static_label_segment_witness :
    (processLine oneLabelNamespace false [] 1 ⟨none, 0⟩
        ⟨["prod", ""], [], emptyMetrics⟩).labelValues.get? 0 =
      (⟨["prod", ""], [], emptyMetrics⟩ : PipelineState).labelValues.get? 0 ∧
    (⟨["prod"], [], emptyMetrics⟩ : PipelineState).labelValues.take
        (orderLabels oneLabelNamespace.labels).2.length =
      (orderLabels oneLabelNamespace.labels).2 :=
  ⟨C9_static_label_segment.1 oneLabelNamespace false [] 1 ⟨none, 0⟩
      ⟨["prod", ""], [], emptyMetrics⟩ 0 (by decide),
   C9_static_label_segment.2 oneLabelNamespace [] [] ⟨["prod"], [], emptyMetrics⟩ rfl⟩

/-! ## Claim C4: the 128-label limit -/

/-- Claim C4. If the static label count plus the count of non-excluded
(deduplicated) relabeling rules exceeds 128, `processSource` returns a fatal
error regardless of the input lines (so before processing any line, and with
no metric event recorded); if the total is at most 128 the guard passes and
the pipeline runs to a final state. -/
theorem C4_label_count_limit :
    ∀ (nsCfg : NamespaceConfig) (defaults : List Rule) (lines lines' : List LineInput),
      ((orderLabels nsCfg.labels).2.length + (sourceRelabelings nsCfg defaults).length >
          maxStaticLabels →
        processSource nsCfg defaults lines =
          Except.error "configured label count exceeds the maximum count of 128" ∧
        processSource nsCfg defaults lines = processSource nsCfg defaults lines') ∧
      ((orderLabels nsCfg.labels).2.length + (sourceRelabelings nsCfg defaults).length ≤
          maxStaticLabels →
        ∃ st, processSource nsCfg defaults lines = Except.ok st) := by
  intro nsCfg defaults lines lines'
  constructor
  · intro hgt
    have h1 : processSource nsCfg defaults lines =
        Except.error "configured label count exceeds the maximum count of 128" := by
      simp only [processSource]
      rw [if_pos hgt]
    have h2 : processSource nsCfg defaults lines' =
        Except.error "configured label count exceeds the maximum count of 128" := by
      simp only [processSource]
      rw [if_pos hgt]
    exact ⟨h1, h1.trans h2.symm⟩
  · intro hle
    have hng : ¬ ((orderLabels nsCfg.labels).2.length +
        (sourceRelabelings nsCfg defaults).length > maxStaticLabels) :=
      not_lt.mpr hle
    simp only [processSource]
    rw [if_neg hng]
    exact ⟨_, rfl⟩

set_option maxRecDepth 8192 in
/-- Witness for C4: 129 distinct non-excluded rules trip the guard; an empty
configuration passes it. -/
theorem C4_label_count_limit_witness :
    (processSource overflowNamespace [] [] =
       Except.error "configured label count exceeds the maximum count of 128") ∧
    (∃ st, processSource plainNamespace [] [] = Except.ok st) :=
  ⟨((C4_label_count_limit overflowNamespace [] [] []).1 (by decide)).1,
   (C4_label_count_limit plainNamespace [] [] []).2 (by decide)⟩

/-! ## Helper lemmas: the user tracker -/

theorem mem_upsert_keys (k : String) (v : Int) :
    ∀ (users : List (String × Int)) (a : String),
      a ∈ (upsert users k v).map Prod.fst ↔ a ∈ users.map Prod.fst ∨ a = k := by
  intro users
  induction users with
  | nil => intro a; simp [upsert]
  | cons kv rest ih =>
    intro a
    obtain ⟨k', v'⟩ := kv
    by_cases hk : k' = k
    · subst hk
      simp [upsert]
      tauto
    · simp [upsert, hk, ih]
      tauto

/-- Go-map upsert preserves distinctness of the tracker's keys, so the
tracker's length is its number of distinct identities. -/
theorem upsert_nodup (k : String) (v : Int) :
    ∀ (users : List (String × Int)),
      (users.map Prod.fst).Nodup → ((upsert users k v).map Prod.fst).Nodup := by
  intro users
  induction users with
  | nil => intro _; simp [upsert]
  | cons kv rest ih =>
    obtain ⟨k', v'⟩ := kv
    intro hnd
    rw [List.map_cons] at hnd
    have hk'nin := (List.nodup_cons.mp hnd).1
    have hrest := (List.nodup_cons.mp hnd).2
    by_cases hk : k' = k
    · subst hk
      simp only [upsert, if_pos rfl, List.map_cons]
      exact List.nodup_cons.mpr ⟨hk'nin, hrest⟩
    · simp only [upsert, if_neg hk, List.map_cons]
      refine List.nodup_cons.mpr ⟨?_, ih hrest⟩
      intro hmem
      rcases (mem_upsert_keys k v rest k').mp hmem with h | h
      · exact hk'nin h
      · exact hk h

/-- The users component and currentUsers gauge events of a successfully
parsed line, as functions of the user-observation step. -/
theorem processLine_userProj (nsCfg : NamespaceConfig) (hasCO : Bool)
    (rl : List Rule) (off : Nat) (st : PipelineState) (pfields : Fields)
    (now : Int) :
    (processLine nsCfg hasCO rl off ⟨some pfields, now⟩ st).users =
      (if nsCfg.metricsConfig.currentUserInterval > 0
       then observeCurrentUsers (filterFields pfields nsCfg) st.users now
       else ((0, false), st.users)).2 ∧
    (processLine nsCfg hasCO rl off ⟨some pfields, now⟩ st).metrics.currentUsers =
      (if (if nsCfg.metricsConfig.currentUserInterval > 0
           then observeCurrentUsers (filterFields pfields nsCfg) st.users now
           else ((0, false), st.users)).1.2
       then st.metrics.currentUsers ++
         [(notCounterLabels hasCO rl
             (applyRelabelings rl (filterFields pfields nsCfg) off st.labelValues),
           (if nsCfg.metricsConfig.currentUserInterval > 0
            then observeCurrentUsers (filterFields pfields nsCfg) st.users now
            else ((0, false), st.users)).1.1)]
       else st.metrics.currentUsers) := by
  constructor
  · rfl
  · simp only [processLine, applyEvents, apply_ite (fun m : Metrics => m.currentUsers),
      ite_self]

/-! ## Claim C8: the distinct-user observation -/

/-- Claim C8. The distinct-user observation is skipped exactly when
`remote_addr` or `http_user_agent` is missing or empty; otherwise the tracker
is upserted under `remote_addr ++ "::" ++ http_user_agent` with the current
timestamp and the gauge publishes the tracker's size (its number of distinct
keys, since upsert preserves key distinctness); and the whole step happens
only when the configured interval is positive. -/
theorem C8_distinct_user_gauge :
    (∀ (fields : Fields) (users : List (String × Int)) (now : Int),
       (lookupField fields "remote_addr" = none ∨
        lookupField fields "remote_addr" = some "" ∨
        lookupField fields "http_user_agent" = none ∨
        lookupField fields "http_user_agent" = some "") →
       observeCurrentUsers fields users now = ((0, false), users)) ∧
    (∀ (fields : Fields) (users : List (String × Int)) (now : Int) (ra ua : String),
       lookupField fields "remote_addr" = some ra → ra ≠ "" →
       lookupField fields "http_user_agent" = some ua → ua ≠ "" →
       observeCurrentUsers fields users now =
         ((((upsert users (ra ++ "::" ++ ua) now).length : ℚ), true),
          upsert users (ra ++ "::" ++ ua) now)) ∧
    (∀ (fields : Fields) (users : List (String × Int)) (now : Int),
       (observeCurrentUsers fields users now).1.2 = false →
       (lookupField fields "remote_addr" = none ∨
        lookupField fields "remote_addr" = some "" ∨
        lookupField fields "http_user_agent" = none ∨
        lookupField fields "http_user_agent" = some "")) ∧
    (∀ (users : List (String × Int)) (k : String) (v : Int),
       (users.map Prod.fst).Nodup → ((upsert users k v).map Prod.fst).Nodup) ∧
    (∀ (nsCfg : NamespaceConfig) (hasCO : Bool) (rl : List Rule) (off : Nat)
       (st : PipelineState) (pfields : Fields) (now : Int),
       nsCfg.metricsConfig.currentUserInterval ≤ 0 →
       (processLine nsCfg hasCO rl off ⟨some pfields, now⟩ st).users = st.users ∧
       (processLine nsCfg hasCO rl off ⟨some pfields, now⟩ st).metrics.currentUsers =
         st.metrics.currentUsers) ∧
    (∀ (nsCfg : NamespaceConfig) (hasCO : Bool) (rl : List Rule) (off : Nat)
       (st : PipelineState) (pfields : Fields) (now : Int) (ra ua : String),
       nsCfg.metricsConfig.currentUserInterval > 0 →
       lookupField (filterFields pfields nsCfg) "remote_addr" = some ra → ra ≠ "" →
       lookupField (filterFields pfields nsCfg) "http_user_agent" = some ua → ua ≠ "" →
       (processLine nsCfg hasCO rl off ⟨some pfields, now⟩ st).users =
         upsert st.users (ra ++ "::" ++ ua) now ∧
       (processLine nsCfg hasCO rl off ⟨some pfields, now⟩ st).metrics.currentUsers =
         st.metrics.currentUsers ++
           [(notCounterLabels hasCO rl
               (applyRelabelings rl (filterFields pfields nsCfg) off st.labelValues),
             ((upsert st.users (ra ++ "::" ++ ua) now).length : ℚ))]) := by
  have skipLemma : ∀ (fields : Fields) (users : List (String × Int)) (now : Int),
      (lookupField fields "remote_addr" = none ∨
       lookupField fields "remote_addr" = some "" ∨
       lookupField fields "http_user_agent" = none ∨
       lookupField fields "http_user_agent" = some "") →
      observeCurrentUsers fields users now = ((0, false), users) := by
    intro fields users now hcond
    rcases hra : lookupField fields "remote_addr" with _ | ra
    · simp [observeCurrentUsers, hra]
    · by_cases hre : ra = ""
      · simp [observeCurrentUsers, hra, hre]
      · rcases hua : lookupField fields "http_user_agent" with _ | ua
        · simp [observeCurrentUsers, hra, hua, hre]
        · by_cases hue : ua = ""
          · simp [observeCurrentUsers, hra, hua, hre, hue]
          · exfalso
            rcases hcond with h | h | h | h
            · rw [hra] at h; exact Option.noConfusion h
            · rw [hra] at h; injection h with h; exact hre h
            · rw [hua] at h; exact Option.noConfusion h
            · rw [hua] at h; injection h with h; exact hue h
  have obsLemma : ∀ (fields : Fields) (users : List (String × Int)) (now : Int)
      (ra ua : String),
      lookupField fields "remote_addr" = some ra → ra ≠ "" →
      lookupField fields "http_user_agent" = some ua → ua ≠ "" →
      observeCurrentUsers fields users now =
        ((((upsert users (ra ++ "::" ++ ua) now).length : ℚ), true),
         upsert users (ra ++ "::" ++ ua) now) := by
    intro fields users now ra ua hra hre hua hue
    simp [observeCurrentUsers, hra, hua, hre, hue]
  refine ⟨skipLemma, obsLemma, ?_, fun users k v h => upsert_nodup k v users h, ?_, ?_⟩
  · intro fields users now hko
    rcases hra : lookupField fields "remote_addr" with _ | ra
    · exact Or.inl rfl
    · by_cases hre : ra = ""
      · exact Or.inr (Or.inl (by rw [hre]))
      · rcases hua : lookupField fields "http_user_agent" with _ | ua
        · exact Or.inr (Or.inr (Or.inl rfl))
        · by_cases hue : ua = ""
          · exact Or.inr (Or.inr (Or.inr (by rw [hue])))
          · exfalso
            rw [obsLemma fields users now ra ua hra hre hua hue] at hko
            exact Bool.noConfusion hko
  · intro nsCfg hasCO rl off st pfields now hle
    have hng : ¬ nsCfg.metricsConfig.currentUserInterval > 0 := not_lt.mpr hle
    obtain ⟨hu, hcu⟩ := processLine_userProj nsCfg hasCO rl off st pfields now
    rw [if_neg hng] at hu hcu
    exact ⟨hu, by rw [hcu]; rfl⟩
  · intro nsCfg hasCO rl off st pfields now ra ua hpos hra hre hua hue
    obtain ⟨hu, hcu⟩ := processLine_userProj nsCfg hasCO rl off st pfields now
    rw [if_pos hpos, obsLemma _ _ _ ra ua hra hre hua hue] at hu hcu
    exact ⟨hu, by rw [hcu]; rfl⟩

/-- Witness for C8: a concrete line with both identity fields present. -/
theorem C8_distinct_user_gauge_witness :
    observeCurrentUsers [("remote_addr", "1.2.3.4"), ("http_user_agent", "curl")] [] 5 =
      ((((upsert [] ("1.2.3.4" ++ "::" ++ "curl") 5).length : ℚ), true),
       upsert [] ("1.2.3.4" ++ "::" ++ "curl") 5) ∧
    observeCurrentUsers [("http_user_agent", "curl")] [] 5 = ((0, false), []) :=
  ⟨C8_distinct_user_gauge.2.1 [("remote_addr", "1.2.3.4"), ("http_user_agent", "curl")]
      [] 5 "1.2.3.4" "curl" (by decide) (by decide) (by decide) (by decide),
   C8_distinct_user_gauge.1 [("http_user_agent", "curl")] [] 5 (Or.inl (by decide))⟩

/-! ## Claim C6: one field's failure never suppresses another field's observation -/

theorem floatFromFields_congr (f₁ f₂ : Fields) (n : String)
    (h : lookupField f₁ n = lookupField f₂ n) :
    floatFromFields f₁ n = floatFromFields f₂ n := by
  rw [floatFromFields, floatFromFields, h]

theorem floatFromFieldsMulti_congr (f₁ f₂ : Fields) (n : String)
    (h : lookupField f₁ n = lookupField f₂ n) :
    floatFromFieldsMulti f₁ n = floatFromFieldsMulti f₂ n := by
  rw [floatFromFieldsMulti, floatFromFieldsMulti, floatFromFields_congr f₁ f₂ n h, h]

theorem observeMetrics_congr (ex : Fields → String → Extraction) (f₁ f₂ : Fields)
    (n : String) (h : ex f₁ n = ex f₂ n) :
    observeMetrics ex f₁ n = observeMetrics ex f₂ n := by
  rw [observeMetrics, observeMetrics, h]

/-- The observation for a recognized field depends only on that field's own
value in the mapping. -/
theorem lineExtractor_congr (f₁ f₂ : Fields) (m : String)
    (h : lookupField f₁ m = lookupField f₂ m) :
    observeMetrics (lineExtractor m) f₁ m = observeMetrics (lineExtractor m) f₂ m := by
  by_cases hm : m = "upstream_response_time" ∨ m = "upstream_connect_time"
  · rw [lineExtractor, if_pos hm]
    exact observeMetrics_congr _ _ _ _ (floatFromFieldsMulti_congr f₁ f₂ m h)
  · rw [lineExtractor, if_neg hm]
    exact observeMetrics_congr _ _ _ _ (floatFromFields_congr f₁ f₂ m h)

theorem observeMetrics_errInc_one (ex : Fields → String → Extraction)
    (f : Fields) (n : String) (h : (observeMetrics ex f n).errInc = 1) :
    observeMetrics ex f n = ⟨0, false, 1⟩ := by
  rw [observeMetrics] at h ⊢
  by_cases hok : (ex f n).ok = true
  · rw [if_pos hok] at h
    exact absurd h (by simp)
  · rw [if_neg hok] at h ⊢
    by_cases herr : (ex f n).err = true
    · rw [if_pos herr]
    · rw [if_neg herr] at h
      exact absurd h (by simp)

/-- Each of the five observations of the line loop, expressed uniformly
through `lineExtractor`. -/
theorem lineComponent_eq (f : Fields) (m : String) (hm : m ∈ recognizedNumericFields) :
    lineComponent (observeLine f) m =
      (if (observeMetrics (lineExtractor m) f m).ok then
        some (observeMetrics (lineExtractor m) f m).value else none) := by
  simp only [recognizedNumericFields, List.mem_cons, List.not_mem_nil, or_false] at hm
  rcases hm with rfl | rfl | rfl | rfl | rfl <;> rfl

/-- The line loop's parse-error increments are the sum of the five fields'
increments. -/
theorem observeLine_parseErrInc (f : Fields) :
    (observeLine f).parseErrInc =
      (observeMetrics (lineExtractor "body_bytes_sent") f "body_bytes_sent").errInc +
      (observeMetrics (lineExtractor "request_length") f "request_length").errInc +
      (observeMetrics (lineExtractor "upstream_response_time") f
        "upstream_response_time").errInc +
      (observeMetrics (lineExtractor "upstream_connect_time") f
        "upstream_connect_time").errInc +
      (observeMetrics (lineExtractor "request_time") f "request_time").errInc := rfl

/-- Claim C6. If a recognized numeric field's conversion fails on a line, the
parse-error counter is incremented and that field's metric is skipped, while
every other recognized field's extraction and observation is exactly what it
would be for any mapping agreeing outside the failing field (in particular,
for one where the failing field is well-formed). -/
theorem C6_field_failure_isolation :
    ∀ (fields fields' : Fields) (n : String), n ∈ recognizedNumericFields →
      (∀ m, m ≠ n → lookupField fields' m = lookupField fields m) →
      (observeMetrics (lineExtractor n) fields n).errInc = 1 →
      lineComponent (observeLine fields) n = none ∧
      1 ≤ (observeLine fields).parseErrInc ∧
      (∀ m, m ∈ recognizedNumericFields → m ≠ n →
        observeMetrics (lineExtractor m) fields' m =
          observeMetrics (lineExtractor m) fields m ∧
        lineComponent (observeLine fields') m = lineComponent (observeLine fields) m) := by
  intro fields fields' n hn hagree herr
  have hobs := observeMetrics_errInc_one _ _ _ herr
  have hcongr : ∀ m, m ≠ n →
      observeMetrics (lineExtractor m) fields' m = observeMetrics (lineExtractor m) fields m :=
    fun m hm => lineExtractor_congr fields' fields m (hagree m hm)
  refine ⟨?_, ?_, ?_⟩
  · rw [lineComponent_eq fields n hn, hobs]
    rfl
  · rw [observeLine_parseErrInc fields]
    have h1 : (observeMetrics (lineExtractor n) fields n).errInc = 1 := by rw [hobs]
    simp only [recognizedNumericFields, List.mem_cons, List.not_mem_nil, or_false] at hn
    rcases hn with rfl | rfl | rfl | rfl | rfl <;> omega
  · intro m hmem hm
    refine ⟨hcongr m hm, ?_⟩
    rw [lineComponent_eq fields' m hmem, lineComponent_eq fields m hmem, hcongr m hm]

/-- Witness for C6: `body_bytes_sent` is unparsable while `request_time` is
fine; the `request_time` observation is unaffected, and equals the one for
the mapping with `body_bytes_sent` repaired. -/
theorem C6_field_failure_isolation_witness :
    lineComponent (observeLine [("body_bytes_sent", "x"), ("request_time", "1")])
      "body_bytes_sent" = none ∧
    1 ≤ (observeLine [("body_bytes_sent", "x"), ("request_time", "1")]).parseErrInc ∧
    lineComponent (observeLine [("body_bytes_sent", "7"), ("request_time", "1")])
        "request_time" =
      lineComponent (observeLine [("body_bytes_sent", "x"), ("request_time", "1")])
        "request_time" := by
  have hagree : ∀ m, m ≠ "body_bytes_sent" →
      lookupField [("body_bytes_sent", "7"), ("request_time", "1")] m =
        lookupField [("body_bytes_sent", "x"), ("request_time", "1")] m := by
    intro m hm
    have hb : ¬ ("body_bytes_sent" = m) := fun h => hm h.symm
    simp only [lookupField, if_neg hb]
  have h := C6_field_failure_isolation [("body_bytes_sent", "x"), ("request_time", "1")]
    [("body_bytes_sent", "7"), ("request_time", "1")] "body_bytes_sent"
    (by decide) hagree (by decide)
  exact ⟨h.1, h.2.1, (h.2.2 "request_time" (by decide) (by decide)).2⟩

/-! ## Claim C7: OrderLabels is deterministic -/

theorem lookupField_perm {l₁ l₂ : List (String × String)} (hperm : List.Perm l₁ l₂) :
    (l₁.map Prod.fst).Nodup → ∀ k, lookupField l₁ k = lookupField l₂ k := by
  induction hperm with
  | nil => intro _ k; rfl
  | cons x h ih =>
    intro hnd k
    obtain ⟨kx, vx⟩ := x
    rw [List.map_cons, List.nodup_cons] at hnd
    rw [lookupField, lookupField]
    by_cases hk : kx = k
    · rw [if_pos hk, if_pos hk]
    · rw [if_neg hk, if_neg hk]
      exact ih hnd.2 k
  | swap x y l =>
    intro hnd k
    obtain ⟨kx, vx⟩ := x
    obtain ⟨ky, vy⟩ := y
    rw [List.map_cons, List.map_cons, List.nodup_cons] at hnd
    have hne : ky ≠ kx := by
      intro h
      exact hnd.1 (h ▸ List.mem_cons_self kx _)
    rw [lookupField, lookupField, lookupField, lookupField]
    by_cases hky : ky = k <;> by_cases hkx : kx = k
    · exact absurd (hky.trans hkx.symm) hne
    · rw [if_pos hky, if_neg hkx, if_pos hky]
    · rw [if_neg hky, if_pos hkx, if_pos hkx]
    · rw [if_neg hky, if_neg hkx, if_neg hkx, if_neg hky]
  | trans h₁ h₂ ih₁ ih₂ =>
    intro hnd k
    rw [ih₁ hnd k]
    exact ih₂ ((h₁.map Prod.fst).nodup hnd) k

theorem lookupField_of_mem_keys :
    ∀ (l : List (String × String)) (k : String), k ∈ l.map Prod.fst →
      ∃ v, lookupField l k = some v := by
  intro l
  induction l with
  | nil => intro k h; simp at h
  | cons kv rest ih =>
    intro k h
    obtain ⟨k', v'⟩ := kv
    by_cases hk : k' = k
    · exact ⟨v', by rw [lookupField, if_pos hk]⟩
    · rw [List.map_cons, List.mem_cons] at h
      rcases h with heq | hmem
      · exact absurd heq.symm hk
      · obtain ⟨v, hv⟩ := ih k hmem
        exact ⟨v, by rw [lookupField, if_neg hk]; exact hv⟩

theorem zip_self_map (l : List String) (f : String → String) :
    l.zip (l.map f) = l.map (fun a => (a, f a)) := by
  induction l with
  | nil => rfl
  | cons a rest ih => simp [ih]

/-- Claim C7. `OrderLabels` produces the mapping's keys sorted
lexicographically, with the value list positionally matching the sorted keys,
and its output is the same for any two enumeration orders of the same
mapping. -/
theorem C7_order_labels_deterministic :
    ∀ (l₁ l₂ : List (String × String)),
      (l₁.map Prod.fst).Nodup → List.Perm l₁ l₂ →
      orderLabels l₁ = orderLabels l₂ ∧
      List.Perm (orderLabels l₁).1 (l₁.map Prod.fst) ∧
      (orderLabels l₁).1.Sorted (· ≤ ·) ∧
      (∀ p ∈ (orderLabels l₁).1.zip (orderLabels l₁).2,
        lookupField l₁ p.1 = some p.2) := by
  intro l₁ l₂ hnd hperm
  have hkeysperm : List.Perm (l₁.map Prod.fst) (l₂.map Prod.fst) := hperm.map Prod.fst
  refine ⟨?_, ?_, ?_, ?_⟩
  · have hkeys : List.insertionSort (· ≤ ·) (l₁.map Prod.fst) =
        List.insertionSort (· ≤ ·) (l₂.map Prod.fst) :=
      List.eq_of_perm_of_sorted
        ((List.perm_insertionSort _ _).trans
          (hkeysperm.trans (List.perm_insertionSort _ _).symm))
        (List.sorted_insertionSort _ _) (List.sorted_insertionSort _ _)
    rw [orderLabels, orderLabels, hkeys]
    have hvals : ∀ k ∈ List.insertionSort (· ≤ ·) (l₂.map Prod.fst),
        (lookupField l₁ k).getD "" = (lookupField l₂ k).getD "" := by
      intro k _
      rw [lookupField_perm hperm hnd k]
    rw [List.map_congr_left hvals]
  · rw [orderLabels]
    exact List.perm_insertionSort _ _
  · rw [orderLabels]
    exact List.sorted_insertionSort _ _
  · rw [orderLabels]
    intro p hp
    rw [zip_self_map] at hp
    obtain ⟨k, hk, rfl⟩ := List.mem_map.mp hp
    have hkmem : k ∈ l₁.map Prod.fst := (List.perm_insertionSort _ _).mem_iff.mp hk
    obtain ⟨v, hv⟩ := lookupField_of_mem_keys l₁ k hkmem
    rw [hv]
    rfl

/-- Witness for C7: two enumeration orders of the mapping
`{a ↦ 1, b ↦ 2}`. -/
theorem C7_order_labels_deterministic_witness :
    orderLabels [("b", "2"), ("a", "1")] = orderLabels [("a", "1"), ("b", "2")] ∧
    List.Perm (orderLabels [("b", "2"), ("a", "1")]).1
      ([("b", "2"), ("a", "1")].map Prod.fst) ∧
    (orderLabels [("b", "2"), ("a", "1")]).1.Sorted (· ≤ ·) ∧
    (∀ p ∈ (orderLabels [("b", "2"), ("a", "1")]).1.zip
        (orderLabels [("b", "2"), ("a", "1")]).2,
      lookupField [("b", "2"), ("a", "1")] p.1 = some p.2) :=
  C7_order_labels_deterministic [("b", "2"), ("a", "1")] [("a", "1"), ("b", "2")]
    (by decide) (by decide)
